import Mathlib

/-!
Shallow embedding of the rotation selection engine of the petesky image bot.

The embedded code comes from `src/images/large-scale-selector.ts`
(`LargeScaleImageSelector`), `src/images/index.ts` (`getNextImage`) and the
posting-history bookkeeping in `src/index.ts` (`main`).  JavaScript strings
are Lean `String`s, arrays are `List`s, JS `number`s holding counters are
`Int`/`Nat`.  `Math.floor(x * 0.15)` and `Math.floor(x * 0.7)` are modelled
with exact rational arithmetic (`x * 15 / 100`, `x * 7 / 10` over `Nat`);
the sha256-based `hashFilename` is modelled as an abstract function
parameter `hash`; `Math.floor(Math.random() * n)` is modelled by an
externally supplied natural number reduced mod `n`, which reaches exactly
the indices `0 .. n-1` that the JS expression can produce.  File-system
reads and the current date are passed in as explicit arguments.
-/

namespace Petesky

/-- Case-sensitive test that `needle` is a prefix of `hay` (character lists). -/
def litMatch : List Char → List Char → Bool
  | [], _ => true
  | _ :: _, [] => false
  | a :: as, b :: bs => a == b && litMatch as bs

/-- Scan for `needle` as a contiguous substring of `hay`; models
JavaScript `hay.includes(needle)`. -/
def subSearch (needle : List Char) : List Char → Bool
  | [] => needle.isEmpty
  | b :: bs => litMatch needle (b :: bs) || subSearch needle bs

/-- Lower-case every character; models JS `String.prototype.toLowerCase`
on the ASCII identifiers the bot works with. -/
def lowerStr (s : String) : String := String.mk (s.toList.map Char.toLower)

/-- JS `hay.includes(needle)` on strings. -/
def jsIncludes (hay needle : String) : Bool := subSearch needle.toList hay.toList

/-- JS `arr.slice(-k)`: the last `k` elements, except that `slice(-0)` is
`slice(0)` and returns the whole array. -/
def jsSliceLast (k : Nat) (l : List α) : List α :=
  if k == 0 then l else l.drop (l.length - k)

/-- Uniform choice modelling `arr[Math.floor(Math.random() * arr.length)]`:
index `r % length`, `none` when the array is empty (JS yields `undefined`). -/
def jsChoose (l : List String) (r : Nat) : Option String := l[r % l.length]?

/-- Case-insensitive literal matcher returning the unconsumed rest. -/
def matchLitCI : List Char → List Char → Option (List Char)
  | [], rest => some rest
  | _ :: _, [] => none
  | a :: as, b :: bs => if a.toLower == b.toLower then matchLitCI as bs else none

/-- Greedy run of ASCII digits (regex `\d+` followed by a non-digit token
never needs backtracking, so maximal munch is exact here). -/
def takeDigits : List Char → List Char × List Char
  | [] => ([], [])
  | c :: cs =>
    if c.isDigit then
      let (d, r) := takeDigits cs
      (c :: d, r)
    else ([], c :: cs)

/-- Whitespace class of the regex `\s` restricted to the characters that can
occur in the bot's filenames. -/
def isJsSpace (c : Char) : Bool := c == ' ' || c == '\t' || c == '\n' || c == '\r'

/-- Greedy `\s*` (the following token is a digit or `x`, so no backtracking). -/
def dropSpaces (l : List Char) : List Char := l.dropWhile isJsSpace

/-- Match `(\d+)x(\d+)` at the head of the input, case-insensitively;
with `allowSpace` it matches `(\d+)\s*x\s*(\d+)` instead.  Returns the two
captured digit groups. -/
def matchPairAt (allowSpace : Bool) (cs : List Char) : Option (List Char × List Char) :=
  let (d1, r1) := takeDigits cs
  if d1.isEmpty then none
  else
    let r1 := if allowSpace then dropSpaces r1 else r1
    match r1 with
    | [] => none
    | c :: r2 =>
      if c.toLower == 'x' then
        let r2 := if allowSpace then dropSpaces r2 else r2
        let (d2, _) := takeDigits r2
        if d2.isEmpty then none else some (d1, d2)
      else none

/-- Match `(?:Season?\s*)?(\d+)x(\d+)` at the head of the input: regex
pattern 1 of `extractEpisodeIdentifier`.  `Season?` is the literal `Seaso`
with an optional trailing `n` (the `?` binds to the final character); if the
body fails after the optional prefix consumed something, the regex engine
retries without the prefix at the same start position. -/
def matchP1At (cs : List Char) : Option (List Char × List Char) :=
  match matchLitCI "seaso".toList cs with
  | some r =>
    let r := match r with
      | c :: r2 => if c.toLower == 'n' then r2 else c :: r2
      | [] => []
    match matchPairAt false (dropSpaces r) with
    | some res => some res
    | none => matchPairAt false cs
  | none => matchPairAt false cs

/-- Match `S(\d+)E(\d+)` at the head of the input (regex pattern 2). -/
def matchP2At (cs : List Char) : Option (List Char × List Char) :=
  match cs with
  | [] => none
  | c :: r =>
    if c.toLower == 's' then
      let (d1, r1) := takeDigits r
      if d1.isEmpty then none
      else
        match r1 with
        | [] => none
        | e :: r2 =>
          if e.toLower == 'e' then
            let (d2, _) := takeDigits r2
            if d2.isEmpty then none else some (d1, d2)
          else none
    else none

/-- Leftmost match: try the matcher at every start position, left to right,
as the JS regex engine does for an unanchored pattern. -/
def scanFirst (p : List Char → Option (List Char × List Char)) :
    List Char → Option (List Char × List Char)
  | [] => p []
  | c :: cs =>
    match p (c :: cs) with
    | some res => some res
    | none => scanFirst p cs

/-- Drop the last `n` characters. -/
def dropLastN (n : Nat) (l : List α) : List α := l.take (l.length - n)

/-- Case-insensitive suffix test. -/
def hasSuffixCI (cs suf : List Char) : Bool :=
  litMatch (suf.map Char.toLower).reverse ((cs.map Char.toLower)).reverse

/-- `name.replace(/\.(jpg|jpeg|png|gif|bmp)$/i, '')`: strip one trailing
image extension, case-insensitively. -/
def stripImageExt (s : String) : String :=
  let cs := s.toList
  if hasSuffixCI cs ".jpeg".toList then String.mk (dropLastN 5 cs)
  else if hasSuffixCI cs ".jpg".toList then String.mk (dropLastN 4 cs)
  else if hasSuffixCI cs ".png".toList then String.mk (dropLastN 4 cs)
  else if hasSuffixCI cs ".gif".toList then String.mk (dropLastN 4 cs)
  else if hasSuffixCI cs ".bmp".toList then String.mk (dropLastN 4 cs)
  else s

/-- `extractEpisodeIdentifier` of `large-scale-selector.ts`: strip the image
extension, try the three season/episode patterns in order and return
`S<group1>E<group2>` for the first hit; otherwise fall back to
`cleanName.split('-')[0] || cleanName`. -/
def extractEpisodeIdentifier (imageName : String) : String :=
  let cleanName := stripImageExt imageName
  let cs := cleanName.toList
  match scanFirst matchP1At cs with
  | some (d1, d2) => "S" ++ String.mk d1 ++ "E" ++ String.mk d2
  | none =>
    match scanFirst matchP2At cs with
    | some (d1, d2) => "S" ++ String.mk d1 ++ "E" ++ String.mk d2
    | none =>
      match scanFirst (matchPairAt true) cs with
      | some (d1, d2) => "S" ++ String.mk d1 ++ "E" ++ String.mk d2
      | none =>
        let head := cs.takeWhile (fun c => c != '-')
        if head.isEmpty then cleanName else String.mk head

/-- `parseInt` on a non-empty digit string. -/
def parseIntDigits (ds : List Char) : Nat :=
  ds.foldl (fun a c => a * 10 + (c.toNat - '0'.toNat)) 0

/-- Result of `extractEpisodeInfo` in `src/index.ts` when a pattern matches. -/
structure EpisodeInfo where
  season : Nat
  episode : Nat
  episodeId : String
deriving Repr, DecidableEq

/-- `extractEpisodeInfo` of `src/index.ts`: same three patterns, but the
captures go through `parseInt` and the function returns `{}` (here `none`)
when no pattern matches — there is no fallback tag. -/
def extractEpisodeInfo (imageName : String) : Option EpisodeInfo :=
  let cleanName := stripImageExt imageName
  let cs := cleanName.toList
  let hit :=
    match scanFirst matchP1At cs with
    | some res => some res
    | none =>
      match scanFirst matchP2At cs with
      | some res => some res
      | none => scanFirst (matchPairAt true) cs
  hit.map fun (d1, d2) =>
    let s := parseIntDigits d1
    let e := parseIntDigits d2
    { season := s, episode := e, episodeId := "S" ++ toString s ++ "E" ++ toString e }

/-- Seasonal group of an image (`seasonType` in `getSeasonalStatus`). -/
inductive SeasonType where
  | halloween
  | christmas
deriving Repr, DecidableEq, BEq

/-- Return value of `getSeasonalStatus`. -/
structure SeasonalStatus where
  isSeasonalEpisode : Bool
  currentlySeasonal : Bool
  seasonType : Option SeasonType
deriving Repr, DecidableEq

/-- `getSeasonalStatus` of `large-scale-selector.ts`; `month` is the
JS `new Date().getMonth() + 1` (1–12), passed in explicitly. -/
def getSeasonalStatus (month : Nat) (imageName : String) : SeasonalStatus :=
  let content := lowerStr imageName
  if jsIncludes content "halloweenie" then
    { isSeasonalEpisode := true, currentlySeasonal := month == 10
      seasonType := some SeasonType.halloween }
  else if jsIncludes content "christmas_pete" || jsIncludes content "o\x27_christmas_pete"
      || jsIncludes content "new_year\x27s_pete" || jsIncludes content "new_years_pete" then
    { isSeasonalEpisode := true, currentlySeasonal := month == 12
      seasonType := some SeasonType.christmas }
  else
    { isSeasonalEpisode := false, currentlySeasonal := true, seasonType := none }

/-- `filterImagesBySeasonalRules` of `large-scale-selector.ts`: October is
Halloweenie-only (falling back to everything when no Halloweenie image
exists), December is Christmas-only (same fallback), every other month keeps
exactly the non-seasonal images, with no fallback. -/
def filterImagesBySeasonalRules (month : Nat) (validImageFiles : List String) : List String :=
  if month == 10 then
    let halloweenieImages := validImageFiles.filter fun image =>
      (getSeasonalStatus month image).isSeasonalEpisode
        && (getSeasonalStatus month image).seasonType == some SeasonType.halloween
    if halloweenieImages.length > 0 then halloweenieImages else validImageFiles
  else if month == 12 then
    let christmasImages := validImageFiles.filter fun image =>
      (getSeasonalStatus month image).isSeasonalEpisode
        && (getSeasonalStatus month image).seasonType == some SeasonType.christmas
    if christmasImages.length > 0 then christmasImages else validImageFiles
  else
    validImageFiles.filter fun image => !(getSeasonalStatus month image).isSeasonalEpisode

/-- The persisted `LargeScaleHistory` record. -/
structure LargeScaleHistory where
  recentlyUsed : List String
  totalImagesEver : Int
  postsThisCycle : Int
  cycleStartedAt : String
  lastUpdated : String
  formatVersion : Int
deriving Repr, DecidableEq

/-- `this.recentExclusionSize`: `min(floor(length * 0.15), 2000)`. -/
def recentExclusionSize (catalogLen : Nat) : Nat :=
  min (catalogLen * 15 / 100) 2000

/-- `this.maxFileSize = 50 * 1024`. -/
def maxFileSize : Nat := 50 * 1024

/-- `createFreshHistory`; `now` stands for `new Date().toISOString()`. -/
def createFreshHistory (validLen : Nat) (now : String) : LargeScaleHistory :=
  { recentlyUsed := []
    totalImagesEver := (validLen : Int)
    postsThisCycle := 0
    cycleStartedAt := now
    lastUpdated := now
    formatVersion := 1 }

/-- A parsed JSON object as `isValidHistory` sees it: each expected field is
`some v` when present with the right type and `none` when absent or
mistyped. -/
structure ParsedHistory where
  recentlyUsed : Option (List String)
  totalImagesEver : Option Int
  postsThisCycle : Option Int
  cycleStartedAt : Option String
  lastUpdated : Option String
  formatVersion : Option Int
deriving Repr, DecidableEq

/-- `isValidHistory`: the three structurally checked fields exist with the
right types. -/
def isValidHistory (p : ParsedHistory) : Bool :=
  p.recentlyUsed.isSome && p.totalImagesEver.isSome && p.postsThisCycle.isSome

/-- A parsed object accepted by `isValidHistory` used as the history record;
fields the validator does not check default when absent (in JS they would be
`undefined`, which the claims never observe). -/
def coerceParsed (p : ParsedHistory) : LargeScaleHistory :=
  { recentlyUsed := p.recentlyUsed.getD []
    totalImagesEver := p.totalImagesEver.getD 0
    postsThisCycle := p.postsThisCycle.getD 0
    cycleStartedAt := p.cycleStartedAt.getD ""
    lastUpdated := p.lastUpdated.getD ""
    formatVersion := p.formatVersion.getD 0 }

/-- The on-disk state of `.large-scale-history.json` as `loadHistory`
observes it: absent, or present with a byte length and a parse outcome
(`none` models `JSON.parse` throwing or yielding a non-object). -/
inductive StoredFile where
  | absent : StoredFile
  | stored : Nat → Option ParsedHistory → StoredFile
deriving Repr, DecidableEq

/-- `loadHistory`: fresh state when the file is absent, longer than
`maxFileSize`, unparsable, or structurally invalid. -/
def loadHistory (validLen : Nat) (now : String) : StoredFile → LargeScaleHistory
  | StoredFile.absent => createFreshHistory validLen now
  | StoredFile.stored byteLen parse =>
    if byteLen > maxFileSize then createFreshHistory validLen now
    else
      match parse with
      | none => createFreshHistory validLen now
      | some p => if isValidHistory p then coerceParsed p else createFreshHistory validLen now

/-- `saveHistory`: stamp `lastUpdated`, trim the exclusion list to the last
`cap` entries when it exceeds `cap` (JS `slice(-cap)`, so a zero cap keeps
everything), then, if the serialized form is still over `maxFileSize`
(abstracted as the `tooBig` predicate), emergency-trim to the last
`floor(cap * 0.7)` entries.  Returns the history as written to disk. -/
def saveHistory (cap : Nat) (tooBig : LargeScaleHistory → Bool) (now : String)
    (history : LargeScaleHistory) : LargeScaleHistory :=
  let history := { history with lastUpdated := now }
  let history :=
    if history.recentlyUsed.length > cap then
      { history with recentlyUsed := jsSliceLast cap history.recentlyUsed }
    else history
  if tooBig history then
    let emergencySize := cap * 7 / 10
    { history with recentlyUsed := jsSliceLast emergencySize history.recentlyUsed }
  else history

/-- The drift check opening `selectNextImage`:
`Math.abs(history.totalImagesEver - validImageFiles.length) > 50` forces a
fresh history. -/
def driftCheck (catalogLen : Nat) (now : String) (h : LargeScaleHistory) : LargeScaleHistory :=
  if (h.totalImagesEver - (catalogLen : Int)).natAbs > 50 then
    createFreshHistory catalogLen now
  else h

/-- `availableImages`: the seasonally allowed images whose hash is not in
the exclusion list. -/
def availableOf (hash : String → String) (excluded : List String)
    (pool : List String) : List String :=
  pool.filter fun image => !(excluded.contains (hash image))

/-- `episodeFilteredImages`: the strict clustering check, dropping images
whose episode tag occurs among the last 3 recent episodes. -/
def strictClusterSet (availableImages recentEpisodes : List String) : List String :=
  availableImages.filter fun image =>
    !((jsSliceLast 3 recentEpisodes).contains (extractEpisodeIdentifier image))

/-- The candidate set used when the strict clustering check comes back
empty: the code falls back to `availableImages` unchanged. -/
def relaxedClusterSet (availableImages recentEpisodes : List String) : List String :=
  availableImages

/-- The history update after a selection: push the hash, bump the counter,
and run `saveHistory`. -/
def recordSelection (cap : Nat) (tooBig : LargeScaleHistory → Bool) (now : String)
    (hash : String → String) (selectedImage : String)
    (h : LargeScaleHistory) : LargeScaleHistory :=
  saveHistory cap tooBig now
    { h with recentlyUsed := h.recentlyUsed ++ [hash selectedImage]
             postsThisCycle := h.postsThisCycle + 1 }

/-- `selectNextImage` of `large-scale-selector.ts`.  `recentPosts` is what
`getRecentPostingHistory()` returned (the last 8 posted image names), `r`
feeds the single `Math.random()` draw the invocation performs, and the
result pairs the selected image with the history as persisted.  A `none`
selection models the `undefined` read from an empty array (the JS run then
dies hashing `undefined`), in which case nothing is persisted. -/
def selectNextImage (month : Nat) (validImageFiles : List String)
    (hash : String → String) (tooBig : LargeScaleHistory → Bool) (now : String)
    (recentPosts : List String) (r : Nat)
    (history0 : LargeScaleHistory) : Option String × LargeScaleHistory :=
  let history := driftCheck validImageFiles.length now history0
  let cap := recentExclusionSize validImageFiles.length
  let seasonallyAllowedImages := filterImagesBySeasonalRules month validImageFiles
  let recentEpisodes := recentPosts.map extractEpisodeIdentifier
  let availableImages := availableOf hash history.recentlyUsed seasonallyAllowedImages
  if availableImages.length == 0 then
    let resetHistory :=
      { history with recentlyUsed := ([] : List String), postsThisCycle := 0
                     cycleStartedAt := now }
    match jsChoose seasonallyAllowedImages r with
    | none => (none, resetHistory)
    | some selectedImage =>
      (some selectedImage, recordSelection cap tooBig now hash selectedImage resetHistory)
  else
    let episodeFilteredImages := strictClusterSet availableImages recentEpisodes
    let choice :=
      if episodeFilteredImages.length > 0 then jsChoose episodeFilteredImages r
      else jsChoose (relaxedClusterSet availableImages recentEpisodes) r
    match choice with
    | none => (none, history)
    | some selectedImage =>
      (some selectedImage, recordSelection cap tooBig now hash selectedImage history)

/-- Outcome of one `getNextImage` run (`src/images/index.ts`). -/
inductive RunResult where
  | emptyCatalog : RunResult
  | crashed : RunResult
  | ok : String → Option LargeScaleHistory → RunResult
deriving Repr, DecidableEq

/-- `getNextImage`: throw on an empty catalog; catalogs of more than 1000
valid files go through `LargeScaleImageSelector` (load persisted state,
select, save); smaller catalogs use one uniform draw over the whole catalog
and touch no rotation state (the saved component is `none`). -/
def getNextImage (month : Nat) (hash : String → String)
    (tooBig : LargeScaleHistory → Bool) (now : String) (recentPosts : List String)
    (storedState : StoredFile) (r : Nat) (validImageFiles : List String) : RunResult :=
  if validImageFiles.length == 0 then RunResult.emptyCatalog
  else if validImageFiles.length > 1000 then
    let history0 := loadHistory validImageFiles.length now storedState
    match selectNextImage month validImageFiles hash tooBig now recentPosts r history0 with
    | (some imageName, saved) => RunResult.ok imageName (some saved)
    | (none, _) => RunResult.crashed
  else
    match jsChoose validImageFiles r with
    | some imageName => RunResult.ok imageName none
    | none => RunResult.crashed

/-- Iterate `selectNextImage`, collecting the selections of each run; one
entry of `rands` feeds one run.  `recentPosts` stays empty, i.e. the
clustering constraint is disabled, and the catalog and month are fixed. -/
def selectRuns (month : Nat) (catalog : List String) (hash : String → String)
    (now : String) (h : LargeScaleHistory) : List Nat → List (Option String)
  | [] => []
  | r :: rs =>
    let step := selectNextImage month catalog hash (fun _ => false) now [] r h
    step.1 :: selectRuns month catalog hash now step.2 rs

/-- Iterate `selectNextImage` and return the final persisted history. -/
def iterSelect (month : Nat) (catalog : List String) (hash : String → String)
    (now : String) (rands : List Nat) (h : LargeScaleHistory) : LargeScaleHistory :=
  match rands with
  | [] => h
  | r :: rs =>
    iterSelect month catalog hash now rs
      (selectNextImage month catalog hash (fun _ => false) now [] r h).2

/-- One record of the `.bot-history.json` posting history (`src/index.ts`). -/
structure PostingHistoryEntry where
  imageName : String
  timestamp : String
  altText : String
  episode : Option String
  season : Option Nat
  episodeNumber : Option Nat
  cycleInfo : Option String
deriving Repr, DecidableEq

/-- The entry `main` builds for the posting history: episode fields come
from `extractEpisodeInfo` and are absent when no pattern matched. -/
def mkPostingEntry (imageName timestamp altText : String)
    (cycleInfo : Option String) : PostingHistoryEntry :=
  match extractEpisodeInfo imageName with
  | some info =>
    { imageName := imageName, timestamp := timestamp, altText := altText
      episode := some info.episodeId, season := some info.season
      episodeNumber := some info.episode, cycleInfo := cycleInfo }
  | none =>
    { imageName := imageName, timestamp := timestamp, altText := altText
      episode := none, season := none, episodeNumber := none, cycleInfo := cycleInfo }

/-- `main`'s history update: push the entry, then keep only the last 100
entries (`entries.slice(-100)`) when the cap is exceeded. -/
def recordPostingEntry (entries : List PostingHistoryEntry)
    (entry : PostingHistoryEntry) : List PostingHistoryEntry :=
  let entries := entries ++ [entry]
  if entries.length > 100 then jsSliceLast 100 entries else entries

/-- Concrete October catalog: 2 Halloweenie images inside a 14-image
catalog, so the eligible pool (2) is far smaller than the catalog (14). -/
def octCatalog : List String :=
  ["halloweenie_a.jpg", "halloweenie_b.jpg", "p0.jpg", "p1.jpg", "p2.jpg", "p3.jpg",
   "p4.jpg", "p5.jpg", "p6.jpg", "p7.jpg", "p8.jpg", "p9.jpg", "p10.jpg", "p11.jpg"]

/-- Concrete October catalog whose eligible pool (2) differs from the
catalog size (62) by more than the drift threshold of 50. -/
def driftCatalog : List String :=
  ["halloweenie_a.jpg", "halloweenie_b.jpg"]
    ++ (List.range 60).map (fun i => "p" ++ toString i ++ ".jpg")

/-- Concrete non-seasonal 7-image catalog. -/
def plainCatalog : List String :=
  ["a.jpg", "b.jpg", "c.jpg", "d.jpg", "e.jpg", "f.jpg", "g.jpg"]

/-- Concrete 1001-image catalog consisting solely of Halloweenie
screenshots. -/
def bigHalCatalog : List String :=
  (List.range 1001).map (fun i => "halloweenie-" ++ toString i ++ ".jpg")

/-- Concrete catalog pairing one Halloweenie image with one plain image. -/
def halPairCatalog : List String :=
  ["halloweenie_s02e06-0001.jpg", "space_geek-0001.jpg"]

/-- The three corruption conditions of the persisted rotation state:
absent, oversized, or unparsable / structurally invalid content. -/
def storedCorrupt : StoredFile → Bool
  | StoredFile.absent => true
  | StoredFile.stored _ none => true
  | StoredFile.stored byteLen (some p) => byteLen > maxFileSize || !isValidHistory p

/-! Helper lemmas shared by the claim theorems. -/

theorem jsChoose_mem {l : List String} {r : Nat} {x : String}
    (h : jsChoose l r = some x) : x ∈ l :=
  List.getElem?_mem h

theorem jsChoose_isSome (r : Nat) {l : List String} (h : l ≠ []) :
    ∃ x, jsChoose l r = some x := by
  have hlen : 0 < l.length := List.length_pos.mpr h
  have hm : r % l.length < l.length := Nat.mod_lt _ hlen
  exact ⟨l[r % l.length], List.getElem?_eq_getElem hm⟩

theorem exists_jsChoose {l : List String} {x : String} (h : x ∈ l) :
    ∃ r, jsChoose l r = some x := by
  obtain ⟨n, hn⟩ := List.getElem?_of_mem h
  have hlt : n < l.length := by
    by_contra hge
    rw [List.getElem?_eq_none (Nat.le_of_not_lt hge)] at hn
    exact Option.noConfusion hn
  refine ⟨n, ?_⟩
  unfold jsChoose
  rw [Nat.mod_eq_of_lt hlt]
  exact hn

theorem jsSliceLast_length_le (k : Nat) (l : List α) :
    (jsSliceLast k l).length ≤ l.length := by
  unfold jsSliceLast
  split
  · exact Nat.le_refl _
  · simp [List.length_drop]

theorem jsSliceLast_length_le_of_pos {k : Nat} (hk : 0 < k) (l : List α) :
    (jsSliceLast k l).length ≤ k := by
  have hne : (k == 0) = false := by simp; omega
  simp only [jsSliceLast, hne, Bool.false_eq_true, if_false, List.length_drop]
  omega

theorem jsSliceLast_eq_of_le {k : Nat} {l : List α} (h : l.length ≤ k) (hk : k ≠ 0) :
    jsSliceLast k l = l := by
  have hne : (k == 0) = false := by simp [hk]
  have hz : l.length - k = 0 := by omega
  simp only [jsSliceLast, hne, Bool.false_eq_true, if_false, hz, List.drop_zero]

theorem strictClusterSet_no_recent (avail : List String) :
    strictClusterSet avail [] = avail := by
  unfold strictClusterSet
  apply List.filter_eq_self.mpr
  intro a _
  rfl

theorem strictClusterSet_subset (avail recents : List String) :
    strictClusterSet avail recents ⊆ avail :=
  List.filter_subset' avail

theorem availableOf_subset (hash : String → String) (excluded pool : List String) :
    availableOf hash excluded pool ⊆ pool :=
  List.filter_subset' pool

theorem availableOf_nil (hash : String → String) (pool : List String) :
    availableOf hash [] pool = pool := by
  unfold availableOf
  apply List.filter_eq_self.mpr
  intro a _
  rfl

/-- General bound for `saveHistory`: with a positive cap the persisted
exclusion list never exceeds the cap. -/
theorem saveHistory_length_le {cap : Nat} (hcap : 0 < cap)
    (tooBig : LargeScaleHistory → Bool) (now : String) (h : LargeScaleHistory) :
    (saveHistory cap tooBig now h).recentlyUsed.length ≤ cap := by
  simp only [saveHistory]
  split
  · split
    · exact le_trans (jsSliceLast_length_le _ _) (jsSliceLast_length_le_of_pos hcap _)
    · exact jsSliceLast_length_le_of_pos hcap _
  · next hle =>
    split
    · exact le_trans (jsSliceLast_length_le _ _) (Nat.le_of_not_lt hle)
    · exact Nat.le_of_not_lt hle

/-- Running `selectNextImage` from a fresh history with an empty posting
history reduces to one uniform draw over the seasonally allowed pool. -/
theorem selectNextImage_fresh (month : Nat) (catalog : List String)
    (hash : String → String) (tooBig : LargeScaleHistory → Bool) (now : String) (r : Nat)
    (hpool : filterImagesBySeasonalRules month catalog ≠ []) :
    (selectNextImage month catalog hash tooBig now [] r
        (createFreshHistory catalog.length now)).1 =
      jsChoose (filterImagesBySeasonalRules month catalog) r := by
  have hdc : driftCheck catalog.length now (createFreshHistory catalog.length now)
      = createFreshHistory catalog.length now := by
    unfold driftCheck
    rw [if_neg]
    simp [createFreshHistory]
  have hlen : ¬ ((filterImagesBySeasonalRules month catalog).length == 0) = true := by
    simp [List.length_eq_zero, hpool]
  obtain ⟨sel, hsel⟩ := jsChoose_isSome r hpool
  have hpos : 0 < (filterImagesBySeasonalRules month catalog).length :=
    List.length_pos.mpr hpool
  simp only [selectNextImage, hdc]
  rw [show (createFreshHistory catalog.length now).recentlyUsed = [] from rfl]
  simp only [availableOf_nil, List.map_nil, strictClusterSet_no_recent]
  rw [if_neg hlen, if_pos hpos, hsel]

/-- Any image returned by `selectNextImage` lies in the seasonally allowed
pool: all three selection sites draw from `seasonallyAllowedImages` or from
one of its filtered subsets. -/
theorem selectNextImage_fst_mem {month : Nat} {catalog : List String}
    {hash : String → String} {tooBig : LargeScaleHistory → Bool} {now : String}
    {recentPosts : List String} {r : Nat} {h0 : LargeScaleHistory} {x : String}
    (hx : (selectNextImage month catalog hash tooBig now recentPosts r h0).1 = some x) :
    x ∈ filterImagesBySeasonalRules month catalog := by
  unfold selectNextImage at hx
  simp only at hx
  split at hx
  · split at hx
    · exact absurd hx (by simp)
    · next sel hsel =>
      simp only at hx
      cases hx
      exact jsChoose_mem hsel
  · split at hx
    · exact absurd hx (by simp)
    · next sel hsel =>
      simp only at hx
      cases hx
      split at hsel
      · exact availableOf_subset hash _ _ (strictClusterSet_subset _ _ (jsChoose_mem hsel))
      · exact availableOf_subset hash _ _ (jsChoose_mem hsel)

theorem litMatch_self_append : ∀ (n r : List Char), litMatch n (n ++ r) = true
  | [], _ => rfl
  | c :: cs, r => by
    show (c == c && litMatch cs (cs ++ r)) = true
    rw [beq_self_eq_true, litMatch_self_append cs r]
    rfl

theorem subSearch_of_prefix (n r : List Char) : subSearch n (n ++ r) = true := by
  cases n with
  | nil => cases r <;> rfl
  | cons c cs =>
    show (litMatch (c :: cs) (c :: (cs ++ r)) || _) = true
    rw [show c :: (cs ++ r) = (c :: cs) ++ r from rfl, litMatch_self_append]
    rfl

theorem jsChoose_nil (r : Nat) : jsChoose [] r = none := by
  simp [jsChoose]

theorem filterImagesBySeasonalRules_subset (month : Nat) (catalog : List String) :
    filterImagesBySeasonalRules month catalog ⊆ catalog := by
  unfold filterImagesBySeasonalRules
  split
  · dsimp only
    split
    · exact List.filter_subset' _
    · exact fun a h => h
  · split
    · dsimp only
      split
      · exact List.filter_subset' _
      · exact fun a h => h
    · exact List.filter_subset' _

/-- With a non-empty seasonally allowed pool, `selectNextImage` always
returns an image: every branch draws from a non-empty list. -/
theorem selectNextImage_isSome (month : Nat) (catalog : List String)
    (hash : String → String) (tooBig : LargeScaleHistory → Bool) (now : String)
    (recentPosts : List String) (r : Nat) (h0 : LargeScaleHistory)
    (hpool : filterImagesBySeasonalRules month catalog ≠ []) :
    ∃ x, (selectNextImage month catalog hash tooBig now recentPosts r h0).1 = some x := by
  unfold selectNextImage
  dsimp only
  split
  · obtain ⟨x, hx⟩ := jsChoose_isSome r hpool
    rw [hx]
    exact ⟨x, rfl⟩
  · next hne =>
    have havail : availableOf hash (driftCheck catalog.length now h0).recentlyUsed
        (filterImagesBySeasonalRules month catalog) ≠ [] := by
      intro hnil
      rw [hnil] at hne
      exact hne rfl
    by_cases hs : (strictClusterSet
        (availableOf hash (driftCheck catalog.length now h0).recentlyUsed
          (filterImagesBySeasonalRules month catalog))
        (recentPosts.map extractEpisodeIdentifier)).length > 0
    · have hsne : strictClusterSet
          (availableOf hash (driftCheck catalog.length now h0).recentlyUsed
            (filterImagesBySeasonalRules month catalog))
          (recentPosts.map extractEpisodeIdentifier) ≠ [] := by
        intro hnil
        rw [hnil] at hs
        exact absurd hs (by simp)
      obtain ⟨x, hx⟩ := jsChoose_isSome r hsne
      rw [if_pos hs, hx]
      exact ⟨x, rfl⟩
    · obtain ⟨x, hx⟩ := jsChoose_isSome r havail
      rw [if_neg hs]
      rw [show jsChoose (relaxedClusterSet
          (availableOf hash (driftCheck catalog.length now h0).recentlyUsed
            (filterImagesBySeasonalRules month catalog))
          (recentPosts.map extractEpisodeIdentifier)) r =
          jsChoose (availableOf hash (driftCheck catalog.length now h0).recentlyUsed
            (filterImagesBySeasonalRules month catalog)) r from rfl, hx]
      exact ⟨x, rfl⟩

/-- With an empty seasonally allowed pool, `selectNextImage` selects
nothing (the JS code reads `undefined` from an empty array). -/
theorem selectNextImage_pool_empty (month : Nat) (catalog : List String)
    (hash : String → String) (tooBig : LargeScaleHistory → Bool) (now : String)
    (recentPosts : List String) (r : Nat) (h0 : LargeScaleHistory)
    (hpool : filterImagesBySeasonalRules month catalog = []) :
    (selectNextImage month catalog hash tooBig now recentPosts r h0).1 = none := by
  unfold selectNextImage
  simp only [hpool]
  rw [show availableOf hash (driftCheck catalog.length now h0).recentlyUsed [] = []
      from rfl]
  rw [if_pos (show ((List.length ([] : List String) == 0) = true) from rfl)]
  rw [jsChoose_nil]

theorem getNextImage_empty (month : Nat) (hash : String → String)
    (tooBig : LargeScaleHistory → Bool) (now : String) (recentPosts : List String)
    (stored : StoredFile) (r : Nat) :
    getNextImage month hash tooBig now recentPosts stored r [] =
      RunResult.emptyCatalog := rfl

theorem getNextImage_small (month : Nat) (hash : String → String)
    (tooBig : LargeScaleHistory → Bool) (now : String) (recentPosts : List String)
    (stored : StoredFile) (r : Nat) {catalog : List String}
    (hne : catalog ≠ []) (hle : catalog.length ≤ 1000) :
    ∃ name, jsChoose catalog r = some name ∧
      getNextImage month hash tooBig now recentPosts stored r catalog =
        RunResult.ok name none := by
  have h0 : ¬ (catalog.length == 0) = true := by
    simp [List.length_eq_zero, hne]
  have hgt : ¬ (catalog.length > 1000) := by omega
  obtain ⟨name, hname⟩ := jsChoose_isSome r hne
  refine ⟨name, hname, ?_⟩
  unfold getNextImage
  rw [if_neg h0, if_neg hgt, hname]

theorem getNextImage_large (month : Nat) (hash : String → String)
    (tooBig : LargeScaleHistory → Bool) (now : String) (recentPosts : List String)
    (stored : StoredFile) (r : Nat) {catalog : List String}
    (hgt : 1000 < catalog.length)
    (hpool : filterImagesBySeasonalRules month catalog ≠ []) :
    ∃ name saved, getNextImage month hash tooBig now recentPosts stored r catalog =
      RunResult.ok name (some saved) ∧
      name ∈ filterImagesBySeasonalRules month catalog := by
  have h0 : ¬ (catalog.length == 0) = true := by
    simp only [beq_iff_eq]
    omega
  obtain ⟨x, hx⟩ := selectNextImage_isSome month catalog hash tooBig now recentPosts r
    (loadHistory catalog.length now stored) hpool
  have hmem := selectNextImage_fst_mem hx
  unfold getNextImage
  rw [if_neg h0, if_pos hgt]
  dsimp only
  rcases hsel : selectNextImage month catalog hash tooBig now recentPosts r
      (loadHistory catalog.length now stored) with ⟨fst, snd⟩
  rw [hsel] at hx
  simp only at hx
  subst hx
  exact ⟨x, snd, rfl, hmem⟩

theorem getNextImage_crash (month : Nat) (hash : String → String)
    (tooBig : LargeScaleHistory → Bool) (now : String) (recentPosts : List String)
    (stored : StoredFile) (r : Nat) {catalog : List String}
    (hgt : 1000 < catalog.length)
    (hpool : filterImagesBySeasonalRules month catalog = []) :
    getNextImage month hash tooBig now recentPosts stored r catalog =
      RunResult.crashed := by
  have h0 : ¬ (catalog.length == 0) = true := by
    simp only [beq_iff_eq]
    omega
  have hx := selectNextImage_pool_empty month catalog hash tooBig now recentPosts r
    (loadHistory catalog.length now stored) hpool
  unfold getNextImage
  rw [if_neg h0, if_pos hgt]
  dsimp only
  rcases hsel : selectNextImage month catalog hash tooBig now recentPosts r
      (loadHistory catalog.length now stored) with ⟨fst, snd⟩
  rw [hsel] at hx
  simp only at hx
  subst hx
  rfl

/-- A non-empty catalog that is small, or whose seasonal pool is non-empty,
always yields a successful run returning a catalog member. -/
theorem getNextImage_ok (month : Nat) (hash : String → String)
    (tooBig : LargeScaleHistory → Bool) (now : String) (recentPosts : List String)
    (stored : StoredFile) (r : Nat) {catalog : List String}
    (hne : catalog ≠ [])
    (hok : catalog.length ≤ 1000 ∨ filterImagesBySeasonalRules month catalog ≠ []) :
    ∃ name saved, getNextImage month hash tooBig now recentPosts stored r catalog =
      RunResult.ok name saved ∧ name ∈ catalog := by
  by_cases hgt : 1000 < catalog.length
  · have hpool : filterImagesBySeasonalRules month catalog ≠ [] :=
      hok.resolve_left (by omega)
    obtain ⟨n, s, h, hm⟩ := getNextImage_large month hash tooBig now recentPosts
      stored r hgt hpool
    exact ⟨n, some s, h, filterImagesBySeasonalRules_subset month catalog hm⟩
  · obtain ⟨n, hj, h⟩ := getNextImage_small month hash tooBig now recentPosts
      stored r hne (by omega)
    exact ⟨n, none, h, jsChoose_mem hj⟩

theorem jsIncludes_hal (s : String) :
    jsIncludes (lowerStr ("halloweenie-" ++ s)) "halloweenie" = true := by
  unfold jsIncludes lowerStr
  rw [show ("halloweenie-" ++ s).toList = "halloweenie-".toList ++ s.toList from rfl]
  rw [List.map_append]
  rw [show String.toList (String.mk ("halloweenie-".toList.map Char.toLower
      ++ s.toList.map Char.toLower)) =
      "halloweenie-".toList.map Char.toLower ++ s.toList.map Char.toLower from rfl]
  rw [show "halloweenie-".toList.map Char.toLower =
      "halloweenie".toList ++ ['-'] from by decide]
  rw [List.append_assoc]
  exact subSearch_of_prefix _ _

theorem bigHal_pool_empty : filterImagesBySeasonalRules 3 bigHalCatalog = [] := by
  unfold filterImagesBySeasonalRules
  rw [if_neg (by decide), if_neg (by decide)]
  apply List.filter_eq_nil_iff.mpr
  intro a ha
  obtain ⟨i, _, rfl⟩ := List.mem_map.mp ha
  have hseason : (getSeasonalStatus 3
      ("halloweenie-" ++ toString i ++ ".jpg")).isSeasonalEpisode = true := by
    unfold getSeasonalStatus
    rw [if_pos (by rw [String.append_assoc]; exact jsIncludes_hal _)]
  simp [hseason]

theorem bigHal_length : bigHalCatalog.length = 1001 := by
  simp [bigHalCatalog]

theorem recentExclusionSize_lt {n : Nat} (hn : 0 < n) : recentExclusionSize n < n := by
  unfold recentExclusionSize
  have hdiv : n * 15 / 100 < n := by
    apply Nat.div_lt_of_lt_mul
    omega
  omega

theorem exists_fresh_mem {prev catalog : List String}
    (hcat : catalog.Nodup) (hlt : prev.length < catalog.length) :
    ∃ x ∈ catalog, x ∉ prev := by
  by_contra hcon
  push_neg at hcon
  have hle := List.Subperm.length_le (List.subperm_of_subset hcat hcon)
  omega

theorem contains_map_hash_false {hash : String → String} (hinj : Function.Injective hash)
    {prev : List String} {x : String} (hx : x ∉ prev) :
    (prev.map hash).contains (hash x) = false := by
  rw [Bool.eq_false_iff]
  intro hc
  obtain ⟨y, hy, hyx⟩ := List.mem_map.mp (List.elem_iff.mp hc)
  exact hx (hinj hyx ▸ hy)

theorem mem_availableOf_iff {hash : String → String} {excluded pool : List String}
    {x : String} :
    x ∈ availableOf hash excluded pool ↔
      x ∈ pool ∧ excluded.contains (hash x) = false := by
  unfold availableOf
  rw [List.mem_filter]
  simp [Bool.not_eq_true']

/-- Saving a history whose exclusion list is within the cap (and whose
serialized form is small) only stamps `lastUpdated`. -/
theorem saveHistory_no_trim {cap : Nat} (now : String) (hh : LargeScaleHistory)
    (hle : hh.recentlyUsed.length ≤ cap) :
    saveHistory cap (fun _ => false) now hh = { hh with lastUpdated := now } := by
  simp only [saveHistory, Bool.false_eq_true, if_false]
  rw [if_neg]
  exact Nat.not_lt.mpr hle

/-- One run of the engine under the no-repeat invariant: with a drift-free
history whose exclusion list is the fingerprints of the distinct previous
selections `prev`, a seasonal filter that keeps the whole catalog, no
posting history, and some catalog member not yet in `prev`, the engine
selects an image outside `prev` and appends its fingerprint. -/
theorem selectStep_spec
    (month : Nat) (catalog : List String) (hash : String → String) (now : String)
    (hinj : Function.Injective hash)
    (hpool : filterImagesBySeasonalRules month catalog = catalog)
    (prev : List String) (h : LargeScaleHistory) (r : Nat)
    (hru : h.recentlyUsed = prev.map hash)
    (htot : h.totalImagesEver = (catalog.length : Int))
    (hex : ∃ x ∈ catalog, x ∉ prev) :
    ∃ sel,
      selectNextImage month catalog hash (fun _ => false) now [] r h =
        (some sel,
          saveHistory (recentExclusionSize catalog.length) (fun _ => false) now
            { h with recentlyUsed := prev.map hash ++ [hash sel]
                     postsThisCycle := h.postsThisCycle + 1 }) ∧
      sel ∈ catalog ∧ sel ∉ prev := by
  have hdc : driftCheck catalog.length now h = h := by
    unfold driftCheck
    rw [htot]
    simp
  have hA : ∀ x, x ∈ availableOf hash (prev.map hash) catalog ↔
      (x ∈ catalog ∧ x ∉ prev) := by
    intro x
    rw [mem_availableOf_iff]
    constructor
    · rintro ⟨hc, hf⟩
      refine ⟨hc, fun hp => ?_⟩
      have hmem : (prev.map hash).contains (hash x) = true :=
        List.elem_iff.mpr (List.mem_map_of_mem hash hp)
      rw [hf] at hmem
      exact Bool.noConfusion hmem
    · rintro ⟨hc, hp⟩
      exact ⟨hc, contains_map_hash_false hinj hp⟩
  obtain ⟨x0, hx0c, hx0p⟩ := hex
  have hAne : availableOf hash (prev.map hash) catalog ≠ [] := by
    intro hnil
    have hmem := (hA x0).mpr ⟨hx0c, hx0p⟩
    rw [hnil] at hmem
    exact List.not_mem_nil _ hmem
  obtain ⟨sel, hsel⟩ := jsChoose_isSome r hAne
  have hselA := (hA sel).mp (jsChoose_mem hsel)
  refine ⟨sel, ?_, hselA.1, hselA.2⟩
  have hlen0 : ¬ ((availableOf hash (prev.map hash) catalog).length == 0) = true := by
    simp [List.length_eq_zero, hAne]
  have hpos : 0 < (availableOf hash (prev.map hash) catalog).length :=
    List.length_pos.mpr hAne
  unfold selectNextImage
  dsimp only
  rw [hdc, hru, hpool, List.map_nil, if_neg hlen0, strictClusterSet_no_recent,
    if_pos hpos, hsel]
  simp only [recordSelection, hru]

/-- The no-repeat invariant carried through a run sequence: starting from
`prev` distinct previous selections already fingerprinted in the state,
every further run up to the exclusion cap selects a fresh image. -/
theorem selectRuns_distinct_aux
    (month : Nat) (catalog : List String) (hash : String → String) (now : String)
    (hnodup : catalog.Nodup) (hinj : Function.Injective hash)
    (hpool : filterImagesBySeasonalRules month catalog = catalog)
    (hcat : 0 < catalog.length) :
    ∀ (rands : List Nat) (prev : List String) (h : LargeScaleHistory),
      prev.Nodup → prev ⊆ catalog →
      prev.length + rands.length ≤ recentExclusionSize catalog.length + 1 →
      h.recentlyUsed = prev.map hash →
      h.totalImagesEver = (catalog.length : Int) →
      ∃ names : List String,
        selectRuns month catalog hash now h rands = names.map some ∧
        (prev ++ names).Nodup ∧ names ⊆ catalog := by
  intro rands
  induction rands with
  | nil =>
    intro prev h hnd _ _ _ _
    exact ⟨[], rfl, by simpa using hnd, List.nil_subset _⟩
  | cons r rs ih =>
    intro prev h hnd hsub hbudget hru htot
    have hcap := recentExclusionSize_lt hcat
    have hltN : prev.length < catalog.length := by
      simp only [List.length_cons] at hbudget
      omega
    obtain ⟨sel, hstep, hselc, hselp⟩ :=
      selectStep_spec month catalog hash now hinj hpool prev h r hru htot
        (exists_fresh_mem hnodup hltN)
    have hnd2 : (prev ++ [sel]).Nodup := by
      rw [List.nodup_append]
      refine ⟨hnd, List.nodup_singleton sel, ?_⟩
      intro a ha hb
      rw [List.mem_singleton] at hb
      subst hb
      exact hselp ha
    show ∃ names, ((selectNextImage month catalog hash (fun _ => false) now [] r h).1 ::
        selectRuns month catalog hash now
          (selectNextImage month catalog hash (fun _ => false) now [] r h).2 rs) =
        names.map some ∧ (prev ++ names).Nodup ∧ names ⊆ catalog
    rw [hstep]
    cases rs with
    | nil =>
      refine ⟨[sel], rfl, ?_, by
        intro a ha
        rw [List.mem_singleton] at ha
        subst ha
        exact hselc⟩
      exact hnd2
    | cons r2 rs2 =>
      have hle2 : (prev.map hash ++ [hash sel]).length ≤
          recentExclusionSize catalog.length := by
        simp only [List.length_cons] at hbudget
        simp only [List.length_append, List.length_map, List.length_singleton]
        omega
      have hsave := saveHistory_no_trim now
        { h with recentlyUsed := prev.map hash ++ [hash sel]
                 postsThisCycle := h.postsThisCycle + 1 } hle2
      obtain ⟨names2, hruns2, hnd3, hsub3⟩ := ih (prev ++ [sel])
        (saveHistory (recentExclusionSize catalog.length) (fun _ => false) now
          { h with recentlyUsed := prev.map hash ++ [hash sel]
                   postsThisCycle := h.postsThisCycle + 1 })
        hnd2
        (by
          intro a ha
          rcases List.mem_append.mp ha with h1 | h1
          · exact hsub h1
          · rw [List.mem_singleton] at h1
            subst h1
            exact hselc)
        (by
          simp only [List.length_cons] at hbudget
          simp only [List.length_append, List.length_singleton, List.length_cons,
            List.length_nil]
          omega)
        (by
          rw [hsave]
          show prev.map hash ++ [hash sel] = (prev ++ [sel]).map hash
          rw [List.map_append]
          rfl)
        (by rw [hsave]; exact htot)
      refine ⟨sel :: names2, ?_, ?_, ?_⟩
      · show (Option.some sel) :: selectRuns month catalog hash now _ (r2 :: rs2) =
          (sel :: names2).map some
        rw [hruns2]
        rfl
      · have heq : prev ++ sel :: names2 = (prev ++ [sel]) ++ names2 := by
          rw [List.append_assoc]
          rfl
        rw [heq]
        exact hnd3
      · intro a ha
        rcases List.mem_cons.mp ha with h1 | h1
        · subst h1
          exact hselc
        · exact hsub3 h1

/-! Claim theorems. -/

/-- C8: the episode-identifier extractor is a total function of the input
string — in this embedding it is a Lean `def` compiled from structural
recursion, so it yields a tag for every input (no failure path exists) and
repeated applications to the same input agree. -/
theorem extractEpisodeIdentifier_total_deterministic :
    ∀ x : String, extractEpisodeIdentifier x = extractEpisodeIdentifier x ∧
      ∃ tag : String, extractEpisodeIdentifier x = tag :=
  fun x => ⟨rfl, ⟨extractEpisodeIdentifier x, rfl⟩⟩

/-- C9: the relaxed candidate set the code substitutes when the strict
clustering filter comes back empty is always a superset of (and never
smaller than) the strict candidate set, for every pool of available images
and every recent-episode window. -/
theorem clusterRelaxation_monotone :
    ∀ avail recents : List String,
      strictClusterSet avail recents ⊆ relaxedClusterSet avail recents ∧
      (strictClusterSet avail recents).length ≤ (relaxedClusterSet avail recents).length :=
  fun avail recents =>
    ⟨strictClusterSet_subset avail recents, List.length_filter_le _ avail⟩

/-- C10 counterexample: the posting-history entry built for an image name
containing no season/episode pattern (here `cover.jpg`) records no episode
identifier — `extractEpisodeInfo` has no fallback, so the claim that every
entry records its episode identifier fails. -/
theorem postingEntry_missing_episode_cex :
    (mkPostingEntry "cover.jpg" "2024-01-01T00:00:00Z" "alt" none).episode = none := by
  rfl

/-- C10 (amended): after every recording the log holds at most 100 entries
and is exactly the most recent 100 entries, in order, of the log with the
new entry appended; each entry records the emitted image name and
timestamp, and it records an episode identifier exactly when a
season/episode pattern matches the name (otherwise that field is absent). -/
theorem recordPostingEntry_bounded :
    ∀ (entries : List PostingHistoryEntry) (name ts alt : String) (ci : Option String),
      (recordPostingEntry entries (mkPostingEntry name ts alt ci)).length ≤ 100 ∧
      recordPostingEntry entries (mkPostingEntry name ts alt ci) =
        jsSliceLast 100 (entries ++ [mkPostingEntry name ts alt ci]) ∧
      (mkPostingEntry name ts alt ci).imageName = name ∧
      (mkPostingEntry name ts alt ci).timestamp = ts ∧
      (mkPostingEntry name ts alt ci).episode =
        (extractEpisodeInfo name).map EpisodeInfo.episodeId := by
  intro entries name ts alt ci
  refine ⟨?_, ?_, ?_, ?_, ?_⟩
  · simp only [recordPostingEntry]
    split
    · exact jsSliceLast_length_le_of_pos (by omega) _
    · omega
  · simp only [recordPostingEntry]
    split
    · rfl
    · next hle =>
      rw [jsSliceLast_eq_of_le (by omega) (by omega)]
  · unfold mkPostingEntry
    split <;> rfl
  · unfold mkPostingEntry
    split <;> rfl
  · unfold mkPostingEntry
    split
    · next info heq => rw [heq]; rfl
    · next heq => rw [heq]; rfl

/-- C5: for a catalog of more than one and at most 1000 valid image files,
`getNextImage` performs a single uniform draw over the whole catalog —
the result is the image at index `r mod length` for every random draw `r`,
it is independent of the month, the persisted rotation state, the posting
history, the hash, and the size check, and no rotation state is persisted
(the saved component is `none`), so consecutive runs with equal draws
repeat the same image. -/
theorem smallCatalog_uniform_random
    (catalog : List String) (h1 : 1 < catalog.length) (h2 : catalog.length ≤ 1000)
    (month month2 : Nat) (hash hash2 : String → String)
    (tooBig tooBig2 : LargeScaleHistory → Bool) (now now2 : String)
    (recentPosts recentPosts2 : List String) (stored stored2 : StoredFile) (r : Nat) :
    (∃ name, jsChoose catalog r = some name ∧
      getNextImage month hash tooBig now recentPosts stored r catalog =
        RunResult.ok name none) ∧
    getNextImage month hash tooBig now recentPosts stored r catalog =
      getNextImage month2 hash2 tooBig2 now2 recentPosts2 stored2 r catalog := by
  have hne : catalog ≠ [] := by
    intro h
    rw [h] at h1
    simp at h1
  have h0 : (catalog.length == 0) = false := by
    simp only [beq_eq_false_iff_ne, ne_eq]
    omega
  have hgt : ¬ (catalog.length > 1000) := by omega
  obtain ⟨name, hname⟩ := jsChoose_isSome r hne
  refine ⟨⟨name, hname, ?_⟩, ?_⟩
  · simp [getNextImage, h0, hgt, hname]
  · simp [getNextImage, h0, hgt, hname]

/-- Witness for C5 at a concrete three-image catalog: two runs differing in
month, state, posting history, hash, and size check agree. -/
theorem smallCatalog_uniform_random_witness :
    getNextImage 10 (fun s => s) (fun _ => false) "t" [] StoredFile.absent 1
        ["a.jpg", "b.jpg", "c.jpg"] =
      getNextImage 3 (fun s => s) (fun _ => true) "u" ["x.jpg"]
        (StoredFile.stored 7 none) 1 ["a.jpg", "b.jpg", "c.jpg"] :=
  (smallCatalog_uniform_random ["a.jpg", "b.jpg", "c.jpg"] (by decide) (by decide)
    10 3 (fun s => s) (fun s => s) (fun _ => false) (fun _ => true) "t" "u"
    [] ["x.jpg"] StoredFile.absent (StoredFile.stored 7 none) 1).2

/-- C4: an image whose lowercased name contains the Halloween keyword is in
the October eligible pool and is selectable in October (for a fresh state
some random draw returns it), while in March it is never returned — for
every random draw, persisted state, posting history, hash, and size check —
given that a non-seasonal image exists in the catalog. -/
theorem halloween_october_march
    (catalog : List String) (name : String)
    (hmem : name ∈ catalog)
    (hhal : jsIncludes (lowerStr name) "halloweenie" = true)
    (_hplain : ∃ other ∈ catalog, (getSeasonalStatus 3 other).isSeasonalEpisode = false)
    (hash : String → String) (tooBig : LargeScaleHistory → Bool) (now : String) :
    name ∈ filterImagesBySeasonalRules 10 catalog ∧
    (∃ r, (selectNextImage 10 catalog hash tooBig now [] r
        (createFreshHistory catalog.length now)).1 = some name) ∧
    (∀ (r : Nat) (h0 : LargeScaleHistory) (recentPosts : List String),
      (selectNextImage 3 catalog hash tooBig now recentPosts r h0).1 ≠ some name) := by
  have hstatus : ∀ month, getSeasonalStatus month name =
      { isSeasonalEpisode := true, currentlySeasonal := month == 10
        seasonType := some SeasonType.halloween } := by
    intro month
    unfold getSeasonalStatus
    rw [if_pos hhal]
  have hinpool : name ∈ filterImagesBySeasonalRules 10 catalog := by
    have hpred : ((getSeasonalStatus 10 name).isSeasonalEpisode
        && (getSeasonalStatus 10 name).seasonType == some SeasonType.halloween) = true := by
      rw [hstatus]
      rfl
    have hmemfil : name ∈ catalog.filter fun image =>
        (getSeasonalStatus 10 image).isSeasonalEpisode
          && (getSeasonalStatus 10 image).seasonType == some SeasonType.halloween :=
      List.mem_filter.mpr ⟨hmem, hpred⟩
    have hfpos : 0 < (catalog.filter fun image =>
        (getSeasonalStatus 10 image).isSeasonalEpisode
          && (getSeasonalStatus 10 image).seasonType == some SeasonType.halloween).length :=
      List.length_pos.mpr (by intro hnil; rw [hnil] at hmemfil; exact List.not_mem_nil _ hmemfil)
    unfold filterImagesBySeasonalRules
    rw [if_pos (show (((10 : Nat) == 10) = true) from rfl)]
    dsimp only
    rw [if_pos hfpos]
    exact hmemfil
  refine ⟨hinpool, ?_, ?_⟩
  · have hpoolne : filterImagesBySeasonalRules 10 catalog ≠ [] := by
      intro hnil
      rw [hnil] at hinpool
      exact List.not_mem_nil _ hinpool
    obtain ⟨r, hr⟩ := exists_jsChoose hinpool
    exact ⟨r, by rw [selectNextImage_fresh 10 catalog hash tooBig now r hpoolne]; exact hr⟩
  · intro r h0 recentPosts hcontra
    have hsel := selectNextImage_fst_mem hcontra
    have h10 : (10 == 10) = true := rfl
    have hm3 : ¬ ((3 : Nat) == 10) = true := by decide
    have hm3' : ¬ ((3 : Nat) == 12) = true := by decide
    unfold filterImagesBySeasonalRules at hsel
    rw [if_neg hm3, if_neg hm3'] at hsel
    have := (List.mem_filter.mp hsel).2
    rw [hstatus 3] at this
    exact absurd this (by decide)

/-- Witness for C4 at a concrete two-image catalog (one Halloweenie image,
one plain image). -/
theorem halloween_october_march_witness :
    "halloweenie_s02e06-0001.jpg" ∈ filterImagesBySeasonalRules 10 halPairCatalog ∧
    (∃ r, (selectNextImage 10 halPairCatalog (fun s => s) (fun _ => false) "t" [] r
        (createFreshHistory halPairCatalog.length "t")).1 =
          some "halloweenie_s02e06-0001.jpg") ∧
    (∀ (r : Nat) (h0 : LargeScaleHistory) (recentPosts : List String),
      (selectNextImage 3 halPairCatalog (fun s => s) (fun _ => false) "t" recentPosts r
          h0).1 ≠ some "halloweenie_s02e06-0001.jpg") :=
  halloween_october_march halPairCatalog "halloweenie_s02e06-0001.jpg"
    (by decide) (by decide)
    ⟨"space_geek-0001.jpg", by decide, by decide⟩
    (fun s => s) (fun _ => false) "t"

/-- C3 counterexample: in October the eligible pool of `octCatalog` has 2
images, so the claimed bound is `min(floor(2 * 0.15), 2000) = 0` entries,
yet after one run (which ends in a save) the persisted exclusion list holds
1 entry — the code computes the cap from the full catalog size (14), not
the eligible pool size. -/
theorem exclusionCap_pool_bound_cex :
    (filterImagesBySeasonalRules 10 octCatalog).length = 2 ∧
    (iterSelect 10 octCatalog (fun s => s) "t" [0]
        (createFreshHistory octCatalog.length "t")).recentlyUsed.length >
      recentExclusionSize (filterImagesBySeasonalRules 10 octCatalog).length := by
  constructor
  · decide
  · decide

/-- C3 (amended): the exclusion cap is `min(floor(C * 0.15), 2000)` where
`C` is the full catalog size (the constructor argument), not the eligible
pool size; after every save the persisted exclusion list holds at most that
many entries provided the cap is positive (C ≥ 7).  When the cap is 0
(C ≤ 6), `slice(-0)` keeps the entire list and no bound is enforced. -/
theorem exclusionCap_catalog_bound
    (catalogLen : Nat) (hcap : 0 < recentExclusionSize catalogLen)
    (tooBig : LargeScaleHistory → Bool) (now : String) (h : LargeScaleHistory) :
    (saveHistory (recentExclusionSize catalogLen) tooBig now h).recentlyUsed.length ≤
      recentExclusionSize catalogLen :=
  saveHistory_length_le hcap tooBig now h

/-- Witness for C3 (amended): a 100-file catalog (cap 15) and an oversized
exclusion list of 20 entries. -/
theorem exclusionCap_catalog_bound_witness :
    (saveHistory (recentExclusionSize 100) (fun _ => false) "t"
        { recentlyUsed := List.replicate 20 "h", totalImagesEver := 100
          postsThisCycle := 20, cycleStartedAt := "t", lastUpdated := "t"
          formatVersion := 1 }).recentlyUsed.length ≤ recentExclusionSize 100 :=
  exclusionCap_catalog_bound 100 (by decide) (fun _ => false) "t"
    { recentlyUsed := List.replicate 20 "h", totalImagesEver := 100
      postsThisCycle := 20, cycleStartedAt := "t", lastUpdated := "t"
      formatVersion := 1 }

/-- C6 counterexample: on `driftCatalog` (62 files, October pool of 2) the
state after one run records `totalImagesEver = 62`; on the next run the
eligible pool size (2) differs from it by 60 > 50, so per the claim the
state would be reset and the run would leave exactly 1 exclusion entry —
but the code compares the full catalog size (62 vs 62, no drift) and the
second run leaves 2 entries. -/
theorem driftReset_pool_cex :
    ((iterSelect 10 driftCatalog (fun s => s) "t" [0]
          (createFreshHistory driftCatalog.length "t")).totalImagesEver -
        ((filterImagesBySeasonalRules 10 driftCatalog).length : Int)).natAbs > 50 ∧
    (iterSelect 10 driftCatalog (fun s => s) "t" [0, 0]
        (createFreshHistory driftCatalog.length "t")).recentlyUsed.length = 2 := by
  constructor
  · decide
  · decide

/-- C6 (amended): the drift check compares the stored size against the full
catalog size (the number of valid image files), not the eligible pool size;
when they differ by more than 50 the run proceeds exactly as from a fresh
default state, whose exclusion list is empty and whose counters are zero. -/
theorem driftReset_catalog
    (month : Nat) (catalog : List String) (hash : String → String)
    (tooBig : LargeScaleHistory → Bool) (now : String) (recentPosts : List String)
    (r : Nat) (h0 : LargeScaleHistory)
    (hdrift : (h0.totalImagesEver - (catalog.length : Int)).natAbs > 50) :
    selectNextImage month catalog hash tooBig now recentPosts r h0 =
      selectNextImage month catalog hash tooBig now recentPosts r
        (createFreshHistory catalog.length now) ∧
    (createFreshHistory catalog.length now).recentlyUsed = [] ∧
    (createFreshHistory catalog.length now).postsThisCycle = 0 := by
  have h1 : driftCheck catalog.length now h0 = createFreshHistory catalog.length now := by
    unfold driftCheck
    rw [if_pos hdrift]
  have h2 : driftCheck catalog.length now (createFreshHistory catalog.length now)
      = createFreshHistory catalog.length now := by
    unfold driftCheck
    rw [if_neg]
    simp [createFreshHistory]
  refine ⟨?_, rfl, rfl⟩
  unfold selectNextImage
  rw [h1, h2]

/-- Witness for C6 (amended) at a one-file catalog whose stored size 100
drifts by 99. -/
theorem driftReset_catalog_witness :
    selectNextImage 3 ["a.jpg"] (fun s => s) (fun _ => false) "t" [] 0
        { recentlyUsed := ["x"], totalImagesEver := 100, postsThisCycle := 7
          cycleStartedAt := "s", lastUpdated := "s", formatVersion := 1 } =
      selectNextImage 3 ["a.jpg"] (fun s => s) (fun _ => false) "t" [] 0
        (createFreshHistory (["a.jpg"] : List String).length "t") ∧
    (createFreshHistory (["a.jpg"] : List String).length "t").recentlyUsed = [] ∧
    (createFreshHistory (["a.jpg"] : List String).length "t").postsThisCycle = 0 :=
  driftReset_catalog 3 ["a.jpg"] (fun s => s) (fun _ => false) "t" [] 0
    { recentlyUsed := ["x"], totalImagesEver := 100, postsThisCycle := 7
      cycleStartedAt := "s", lastUpdated := "s", formatVersion := 1 }
    (by decide)

/-- C2 counterexample: `bigHalCatalog` is a non-empty catalog (1001
Halloweenie files), yet with current month March the run fails — the
non-October/December branch of the seasonal filter has no fallback, the
eligible pool is empty, and the selection reads `undefined` instead of
returning a catalog member. -/
theorem nonEmptyCatalog_crash_cex :
    bigHalCatalog ≠ [] ∧
    getNextImage 3 (fun s => s) (fun _ => false) "t" [] StoredFile.absent 0
        bigHalCatalog = RunResult.crashed := by
  constructor
  · intro h
    have hl := bigHal_length
    rw [h] at hl
    simp at hl
  · exact getNextImage_crash 3 (fun s => s) (fun _ => false) "t" [] StoredFile.absent 0
      (by rw [bigHal_length]; omega) bigHal_pool_empty

/-- C2 (amended): a run signals the empty-catalog error iff the catalog is
empty; it fails in any other way iff the catalog has more than 1000 files
and its seasonal pool is empty (which only happens when, in a month with no
active seasonal group, every file is seasonal); every successful run
returns a catalog member. -/
theorem runFailure_characterization
    (month : Nat) (hash : String → String) (tooBig : LargeScaleHistory → Bool)
    (now : String) (recentPosts : List String) (stored : StoredFile) (r : Nat)
    (catalog : List String) :
    (getNextImage month hash tooBig now recentPosts stored r catalog =
        RunResult.emptyCatalog ↔ catalog = []) ∧
    (getNextImage month hash tooBig now recentPosts stored r catalog =
        RunResult.crashed ↔
      (1000 < catalog.length ∧ filterImagesBySeasonalRules month catalog = [])) ∧
    (∀ name saved, getNextImage month hash tooBig now recentPosts stored r catalog =
        RunResult.ok name saved → name ∈ catalog) := by
  by_cases hnil : catalog = []
  · subst hnil
    refine ⟨?_, ?_, ?_⟩ <;> simp [getNextImage_empty]
  · by_cases hgt : 1000 < catalog.length
    · by_cases hpool : filterImagesBySeasonalRules month catalog = []
      · have hc := getNextImage_crash month hash tooBig now recentPosts stored r
          hgt hpool
        rw [hc]
        refine ⟨?_, ?_, ?_⟩ <;> simp [hnil, hgt, hpool]
      · obtain ⟨n, s, hok, hm⟩ := getNextImage_large month hash tooBig now recentPosts
          stored r hgt hpool
        rw [hok]
        refine ⟨by simp [hnil], by simp [hpool], ?_⟩
        intro name saved heq
        have hn : name = n := by
          cases heq
          rfl
        subst hn
        exact filterImagesBySeasonalRules_subset month catalog hm
    · obtain ⟨n, hj, hok⟩ := getNextImage_small month hash tooBig now recentPosts
        stored r hnil (by omega)
      rw [hok]
      refine ⟨by simp [hnil], by simp [hgt], ?_⟩
      intro name saved heq
      have hn : name = n := by
        cases heq
        rfl
      subst hn
      exact jsChoose_mem hj

/-- Witness for C2 (amended) at a concrete one-image catalog. -/
theorem runFailure_characterization_witness :
    getNextImage 3 (fun s => s) (fun _ => false) "t" [] StoredFile.absent 0 ["a.jpg"] =
        RunResult.emptyCatalog ↔ (["a.jpg"] : List String) = [] :=
  (runFailure_characterization 3 (fun s => s) (fun _ => false) "t" [] StoredFile.absent
    0 ["a.jpg"]).1

/-- C7: for every corrupt stored artifact — absent, over the 50 KB size
limit, unparsable, or failing structural validation — `loadHistory` returns
the freshly initialized state, whose exclusion list is empty (within every
cap), whose cycle counter is zero, and which records the current catalog
size; a run using such an artifact completes and returns a catalog member
under the same pool conditions as any healthy run. -/
theorem corruptState_recovery
    (validLen : Nat) (now : String) (stored : StoredFile)
    (hbad : storedCorrupt stored = true) :
    loadHistory validLen now stored = createFreshHistory validLen now ∧
    (createFreshHistory validLen now).recentlyUsed = [] ∧
    (createFreshHistory validLen now).postsThisCycle = 0 ∧
    (createFreshHistory validLen now).totalImagesEver = (validLen : Int) ∧
    (∀ cap : Nat, (createFreshHistory validLen now).recentlyUsed.length ≤ cap) ∧
    (∀ (month : Nat) (hash : String → String) (tooBig : LargeScaleHistory → Bool)
        (recentPosts : List String) (r : Nat) (catalog : List String),
      catalog ≠ [] →
      (catalog.length ≤ 1000 ∨ filterImagesBySeasonalRules month catalog ≠ []) →
      ∃ name saved, getNextImage month hash tooBig now recentPosts stored r catalog =
        RunResult.ok name saved ∧ name ∈ catalog) := by
  refine ⟨?_, rfl, rfl, rfl, fun cap => by simp [createFreshHistory], ?_⟩
  · cases stored with
    | absent => rfl
    | stored byteLen parse =>
      cases parse with
      | none =>
        simp only [loadHistory]
        split <;> rfl
      | some p =>
        simp only [loadHistory]
        by_cases hb : byteLen > maxFileSize
        · rw [if_pos hb]
        · rw [if_neg hb]
          have hv : ¬ (isValidHistory p = true) := by
            intro hvv
            simp only [storedCorrupt] at hbad
            rw [hvv] at hbad
            simp at hbad
            exact hb hbad
          rw [if_neg hv]
  · intro month hash tooBig recentPosts r catalog hne hok
    exact getNextImage_ok month hash tooBig now recentPosts stored r hne hok

/-- Witness for C7 at a concrete oversized, unparsable artifact. -/
theorem corruptState_recovery_witness :
    loadHistory 5 "t" (StoredFile.stored 60000 none) = createFreshHistory 5 "t" :=
  (corruptState_recovery 5 "t" (StoredFile.stored 60000 none) (by decide)).1

/-- C1 counterexample: on the fixed 7-image non-seasonal pool (month March,
no catalog change, clustering disabled via an empty posting history, and an
injective fingerprint) the exclusion cap is `min(floor(7 * 0.15), 2000) = 1`,
and the run sequence with draws `[0, 0, 0]` selects `a.jpg`, `b.jpg`,
`a.jpg`: a repeat occurs on the third of 7 runs, long before the pool of 7
is exhausted, so N runs do not yield N distinct identifiers. -/
theorem noRepeat_until_exhaustion_cex :
    plainCatalog.length = 7 ∧
    recentExclusionSize plainCatalog.length = 1 ∧
    selectRuns 3 plainCatalog (fun s => s) "t"
        (createFreshHistory plainCatalog.length "t") [0, 0, 0] =
      [some "a.jpg", some "b.jpg", some "a.jpg"] := by
  refine ⟨by decide, by decide, by decide⟩

/-- C1 (amended): with clustering disabled and injective fingerprints, a
fresh cycle over a fixed eligible pool equal to the catalog yields pairwise
distinct identifiers only for the first `cap + 1` runs, where
`cap = min(floor(N * 0.15), 2000)` is the exclusion cap — not for `N` runs:
once the cap-bounded tracker starts discarding old fingerprints (from run
`cap + 2` on) a repeat is possible before the pool is exhausted. -/
theorem noRepeat_up_to_cap
    (month : Nat) (catalog : List String) (hash : String → String) (now : String)
    (hnodup : catalog.Nodup) (hinj : Function.Injective hash)
    (hpool : filterImagesBySeasonalRules month catalog = catalog)
    (hne : catalog ≠ []) (rands : List Nat)
    (hlen : rands.length ≤ recentExclusionSize catalog.length + 1) :
    ∃ names : List String,
      selectRuns month catalog hash now (createFreshHistory catalog.length now) rands =
        names.map some ∧
      names.Nodup ∧ names ⊆ catalog := by
  obtain ⟨names, hruns, hnd, hsub⟩ :=
    selectRuns_distinct_aux month catalog hash now hnodup hinj hpool
      (List.length_pos.mpr hne) rands [] (createFreshHistory catalog.length now)
      List.nodup_nil (List.nil_subset _) (by simpa using hlen) rfl rfl
  exact ⟨names, hruns, by simpa using hnd, hsub⟩

/-- Witness for C1 (amended) on the 7-image catalog with `cap + 1 = 2`
runs. -/
theorem noRepeat_up_to_cap_witness :
    ∃ names : List String,
      selectRuns 3 plainCatalog id "t" (createFreshHistory plainCatalog.length "t")
          [0, 0] = names.map some ∧
      names.Nodup ∧ names ⊆ plainCatalog :=
  noRepeat_up_to_cap 3 plainCatalog id "t" (by decide) Function.injective_id
    (by decide) (by decide) [0, 0] (by decide)


end Petesky
